import Mathlib

/-!
Verification of the schema-inference and aggregation pipeline of the
apiExcel dashboard.

The development shallowly embeds the core pipeline:
  - the field classifier (source function analyzeField),
  - the aggregator (source function generateBarChart),
  - the column resolver (source function findColumnValue),
  - the value cleaner (source function cleanString),
  - the tower record validator (source function processExcelData).

Modelling conventions:
  - JavaScript numbers are idealised as rationals; all numeric literals
    in the pipeline are exact decimals, and every comparison threshold
    used by the source (0.8, 0.7, 0.5, 0.1) is exactly representable for
    the integer operand sizes involved, so the idealisation does not
    change any branch outcome.
  - JavaScript Number(s) and parseFloat(s) are modelled on their decimal
    fragment (optional sign, digits, optional fraction, optional decimal
    exponent); hexadecimal and Infinity forms are outside the model.
    Number parses the whole (trimmed) string, parseFloat the longest
    numeric prefix, exactly as in JavaScript.
  - Number-to-string conversion prints the exact decimal expansion,
    which agrees with JavaScript for every decimal-representable value
    produced by the parsers above.
  - NaN cannot occur in any stored coordinate or aggregate because every
    parse in the source is guarded by "|| 0", which the model reflects
    by mapping a failed parse to 0.
-/

namespace ApiExcel

/-! ### JavaScript primitives -/

/-- Whitespace test used by String.prototype.trim and by Number/parseFloat. -/
def isWSChar (c : Char) : Bool :=
  c == ' ' || c == '\t' || c == '\n' || c == '\r'

/-- Remove leading and trailing whitespace from a character list. -/
def trimList (l : List Char) : List Char :=
  ((l.dropWhile isWSChar).reverse.dropWhile isWSChar).reverse

/-- Model of String.prototype.trim. -/
def jsTrim (s : String) : String := String.mk (trimList s.toList)

/-- Decimal digit test, as the regex class [0-9]. -/
def isDigitChar (c : Char) : Bool := c.isDigit

def digitVal (c : Char) : Nat := c.toNat - Char.toNat '0'

def digitsToNat (l : List Char) : Nat :=
  l.foldl (fun a c => 10 * a + digitVal c) 0

/-- Read an unsigned decimal mantissa (digits, optional fraction) from the
front of a character list; returns its value and the unread rest, or none
when no digit is present. -/
def readDec (l : List Char) : Option (ℚ × List Char) :=
  let ds := l.takeWhile isDigitChar
  let r1 := l.dropWhile isDigitChar
  match r1 with
  | '.' :: r2 =>
    let fs := r2.takeWhile isDigitChar
    let r3 := r2.dropWhile isDigitChar
    if ds.isEmpty && fs.isEmpty then none
    else some ((digitsToNat ds : ℚ) + (digitsToNat fs : ℚ) / ((10 : ℚ) ^ fs.length), r3)
  | _ => if ds.isEmpty then none else some ((digitsToNat ds : ℚ), r1)

/-- Read a signed decimal number with optional exponent from the front of a
character list (the shared scanner of Number and parseFloat). -/
def readNumber (l : List Char) : Option (ℚ × List Char) :=
  let sl : Bool × List Char :=
    match l with
    | '-' :: r => (true, r)
    | '+' :: r => (false, r)
    | _ => (false, l)
  match readDec sl.2 with
  | none => none
  | some (q0, r) =>
    let q := if sl.1 then -q0 else q0
    match r with
    | c :: r2 =>
      if c == 'e' || c == 'E' then
        let er : Bool × List Char :=
          match r2 with
          | '-' :: r4 => (true, r4)
          | '+' :: r4 => (false, r4)
          | _ => (false, r2)
        let es := er.2.takeWhile isDigitChar
        if es.isEmpty then some (q, c :: r2)
        else
          let e := digitsToNat es
          some ((if er.1 then q / (10 : ℚ) ^ e else q * (10 : ℚ) ^ e),
                er.2.dropWhile isDigitChar)
      else some (q, c :: r2)
    | [] => some (q, [])

/-- Model of JavaScript parseFloat: skip leading whitespace, parse the
longest numeric prefix; none models NaN. -/
def parseFloatM (s : String) : Option ℚ :=
  (readNumber (s.toList.dropWhile isWSChar)).map Prod.fst

/-- Model of JavaScript Number(s): trim, empty string is 0, otherwise the
whole string must be numeric; none models NaN. -/
def jsNumber (s : String) : Option ℚ :=
  let t := trimList s.toList
  if t.isEmpty then some 0
  else
    match readNumber t with
    | some (q, []) => some q
    | _ => none

/-- Digits of the exact decimal expansion of r/den, at most fuel digits.
Every rational produced by the parsers above has a finite expansion well
below the fuel bound. -/
def fracDigits (den : Nat) : Nat → Nat → String
  | _, 0 => ""
  | r, Nat.succ fuel =>
    if r = 0 then ("")
    else Nat.repr (r * 10 / den) ++ fracDigits den (r * 10 % den) fuel

/-- Decimal rendering of a rational, matching JavaScript number-to-string
on decimal-representable values. -/
def qToString (q : ℚ) : String :=
  let n := q.num.natAbs
  let d := q.den
  (if q < 0 then ("-") else ("")) ++ Nat.repr (n / d) ++
    (if n % d = 0 then ("") else ("." ++ fracDigits d (n % d) 40))

/-- Untyped cell value of a spreadsheet row, as in the DataItem row type
of the dashboard (string | number | boolean | undefined, plus null filled
in for missing cells by the sheet parser). -/
inductive JSValue where
  | str (s : String)
  | num (q : ℚ)
  | bool (b : Bool)
  | null
  | undefined
deriving DecidableEq

/-- Model of JavaScript String(v) / v.toString(). -/
def jsToString : JSValue → String
  | .str s => s
  | .num q => qToString q
  | .bool b => if b then ("true") else ("false")
  | .null => "null"
  | .undefined => "undefined"

/-- JavaScript truthiness of a cell value. -/
def jsTruthy : JSValue → Bool
  | .str s => decide (s ≠ "")
  | .num q => decide (q ≠ 0)
  | .bool b => b
  | .null => false
  | .undefined => false

/-- Remove every occurrence of the characters stripped by the source
regex replace(/[$,%]/g, ""). -/
def stripSym (s : String) : String :=
  String.mk (s.toList.filter (fun c => !(c == '$' || c == ',' || c == '%')))

def listIsPrefixOfB : List Char → List Char → Bool
  | [], _ => true
  | _ :: _, [] => false
  | a :: as, b :: bs => a == b && listIsPrefixOfB as bs

def listIsInfixOfB (needle : List Char) : List Char → Bool
  | [] => needle.isEmpty
  | c :: rest => listIsPrefixOfB needle (c :: rest) || listIsInfixOfB needle rest

/-- Model of String.prototype.includes: pat occurs in s. -/
def strIncludes (s pat : String) : Bool := listIsInfixOfB pat.toList s.toList

/-- Model of String.prototype.toLowerCase (over the character list, so
that it evaluates by kernel reduction). -/
def toLowerStr (s : String) : String := String.mk (s.toList.map Char.toLower)

/-! ### Field classifier (source function analyzeField) -/

inductive FieldType where
  | number
  | currency
  | category
  | text
deriving DecidableEq

/-- The FieldInfo record returned by analyzeField. -/
structure FieldInfo where
  name : String
  type : FieldType
  isMetric : Bool
  isDimension : Bool
  uniqueValues : Nat
  sampleValues : List String
  total : Option ℚ := none
  average : Option ℚ := none
  min : Option ℚ := none
  max : Option ℚ := none
deriving DecidableEq

/-- The filter keeping non-null values: v !== null, undefined, "", "N/A". -/
def isNonNull (v : JSValue) : Bool :=
  decide (v ≠ .null) && decide (v ≠ .undefined) &&
  decide (v ≠ .str ("")) && decide (v ≠ .str ("N/A"))

def nonNullOf (values : List JSValue) : List JSValue := values.filter isNonNull

/-- Deduplication keeping first occurrences, as a JavaScript Set built by
iterating a list while remembering the elements already seen. -/
def dedupGo {α : Type} [DecidableEq α] (seen : List α) : List α → List α
  | [] => []
  | x :: xs => if x ∈ seen then dedupGo seen xs else x :: dedupGo (x :: seen) xs

def dedupFirst {α : Type} [DecidableEq α] (l : List α) : List α := dedupGo [] l

/-- The filter condition of the numericValues computation:
the value, stripped of $ , %, passes Number and is not whitespace-only. -/
def numericKeep (v : JSValue) : Bool :=
  let numStr := stripSym (jsToString v)
  (jsNumber numStr).isSome && decide (¬(trimList numStr.toList).isEmpty)

/-- The map step of the numericValues computation. -/
def numericParse (v : JSValue) : ℚ :=
  (jsNumber (stripSym (jsToString v))).getD 0

/-- numericValues: the numeric subset of the non-null values. -/
def numericValuesOf (values : List JSValue) : List ℚ :=
  ((nonNullOf values).filter numericKeep).map numericParse

/-- The currency regex test ^\$?\d+(\.\d{2})?$ on a comma-free string. -/
def currencyShape (l : List Char) : Bool :=
  let l1 := match l with
    | '$' :: r => r
    | _ => l
  let ds := l1.takeWhile isDigitChar
  let r1 := l1.dropWhile isDigitChar
  !ds.isEmpty &&
    (r1.isEmpty ||
      (match r1 with
       | ['.', a, b] => isDigitChar a && isDigitChar b
       | _ => false))

/-- Currency detection on one value: the value is a string and matches the
currency pattern after removing commas. -/
def isCurrencyValue (v : JSValue) : Bool :=
  match v with
  | .str s => currencyShape (s.toList.filter (fun c => !(c == ',')))
  | _ => false

/-- Name-based override A keyword test (dimension bias). -/
def hasDimKeyword (fieldName : String) : Bool :=
  let l := toLowerStr fieldName
  strIncludes l ("name") || strIncludes l ("mesin") || strIncludes l ("category") ||
  strIncludes l ("type") || strIncludes l ("status") || strIncludes l ("department")

/-- Money keyword test of override B, on the lowercased name. -/
def nameIsMoney (lower : String) : Bool :=
  strIncludes lower ("price") || strIncludes lower ("cost")

/-- Name-based override B keyword test (metric bias). -/
def hasMetricKeyword (fieldName : String) : Bool :=
  let l := toLowerStr fieldName
  strIncludes l ("total") || strIncludes l ("amount") || strIncludes l ("jam") ||
  strIncludes l ("hour") || strIncludes l ("count") || strIncludes l ("sum") ||
  strIncludes l ("qty") || strIncludes l ("quantity") || strIncludes l ("price") ||
  strIncludes l ("cost")

/-- The mutable classification state of analyzeField: type, the two role
flags, and the four optional statistics. -/
structure ClassState where
  type : FieldType
  isMetric : Bool
  isDimension : Bool
  total : Option ℚ
  average : Option ℚ
  min : Option ℚ
  max : Option ℚ
deriving DecidableEq

def statsTotal (nv : List ℚ) : Option ℚ :=
  if nv.isEmpty then none else some nv.sum

def statsAvg (nv : List ℚ) : Option ℚ :=
  if nv.isEmpty then none else some (nv.sum / (nv.length : ℚ))

def statsMin (nv : List ℚ) : Option ℚ :=
  match nv with
  | [] => none
  | x :: xs => some (xs.foldl min x)

def statsMax (nv : List ℚ) : Option ℚ :=
  match nv with
  | [] => none
  | x :: xs => some (xs.foldl max x)

/-- The statistical pass of analyzeField: currency test, then the 80
percent numeric test, then the category test, else text. -/
def baseClassify (nonNull : List JSValue) (numericValues : List ℚ)
    (uniqueCount : Nat) : ClassState :=
  if nonNull.any isCurrencyValue then
    ⟨.currency, true, false, statsTotal numericValues, statsAvg numericValues,
      statsMin numericValues, statsMax numericValues⟩
  else if (numericValues.length : ℚ) ≥ (nonNull.length : ℚ) * ((4 : ℚ) / 5) then
    ⟨.number, true, false, statsTotal numericValues, statsAvg numericValues,
      statsMin numericValues, statsMax numericValues⟩
  else if 1 < uniqueCount ∧
      (uniqueCount : ℚ) ≤ max 20 ((nonNull.length : ℚ) * ((7 : ℚ) / 10)) ∧
      (numericValues.length : ℚ) < (nonNull.length : ℚ) * ((1 : ℚ) / 2) then
    ⟨.category, false, true, none, none, none, none⟩
  else ⟨.text, false, false, none, none, none, none⟩

/-- Name-based override A: dimension-bias keywords force a category. -/
def overrideA (fieldName : String) (s : ClassState) : ClassState :=
  if hasDimKeyword fieldName then
    { s with type := .category, isDimension := true, isMetric := false }
  else s

/-- Name-based override B: metric-bias keywords with a non-empty numeric
subset force a metric. -/
def overrideB (fieldName : String) (numericValues : List ℚ)
    (s : ClassState) : ClassState :=
  if hasMetricKeyword fieldName then
    if numericValues.length > 0 then
      { s with
        type := if nameIsMoney (toLowerStr fieldName) then .currency else .number,
        isMetric := true, isDimension := false }
    else s
  else s

/-- The classifier analyzeField of the dashboard. -/
def analyzeField (values : List JSValue) (fieldName : String) : FieldInfo :=
  let nonNull := nonNullOf values
  let uniqueCount := (dedupFirst nonNull).length
  let sample := (dedupFirst (nonNull.take 5)).map jsToString
  if nonNull.isEmpty then
    { name := fieldName, type := .text, isMetric := false, isDimension := false,
      uniqueValues := 0, sampleValues := [] }
  else
    let numericValues := numericValuesOf values
    let s := overrideB fieldName numericValues
      (overrideA fieldName (baseClassify nonNull numericValues uniqueCount))
    { name := fieldName, type := s.type, isMetric := s.isMetric,
      isDimension := s.isDimension, uniqueValues := uniqueCount,
      sampleValues := sample, total := s.total, average := s.average,
      min := s.min, max := s.max }

/-! ### Aggregator (source function generateBarChart) -/

/-- A data row of the dashboard: column name to untyped cell value. -/
abbrev RowD := List (String × JSValue)

/-- Property access row[key], undefined when the key is absent. -/
def dLookup (row : RowD) (key : String) : JSValue :=
  match row.find? (fun p => p.1 == key) with
  | some p => p.2
  | none => .undefined

/-- The grouping category of a dimension cell: a falsy value falls back to
the literal "Unknown", a truthy value is used (stringified) as object key. -/
def jsCategory (v : JSValue) : String :=
  if jsTruthy v then jsToString v else ("Unknown")

def catOf (row : RowD) (dimName : String) : String :=
  jsCategory (dLookup row dimName)

/-- The metric contribution of one cell:
parseFloat(String(v).replace(/[$,%]/g, "")) || 0. -/
def metricCellValue (v : JSValue) : ℚ :=
  match parseFloatM (stripSym (jsToString v)) with
  | none => 0
  | some q => q

def metricCell (row : RowD) (metricName : String) : ℚ :=
  metricCellValue (dLookup row metricName)

/-- aggregated[cat] = (aggregated[cat] || 0) + val on an insertion-ordered
object, as a key-ordered association list. -/
def addToAgg : List (String × ℚ) → String → ℚ → List (String × ℚ)
  | [], cat, val => [(cat, val)]
  | (c, v) :: rest, cat, val =>
    if c = cat then (c, v + val) :: rest
    else (c, v) :: addToAgg rest cat val

/-- The grouping loop of generateBarChart. -/
def aggregateRows (data : List RowD) (dimName metricName : String) :
    List (String × ℚ) :=
  data.foldl
    (fun agg row => addToAgg agg (catOf row dimName) (metricCell row metricName))
    []

/-- Descending order on summed values, the sort comparator (a, b) => b - a
of the source (JavaScript sort is stable; insertion sort with this
non-strict relation keeps insertion order on ties the same way). -/
def descR (a b : String × ℚ) : Prop := b.2 ≤ a.2

instance : DecidableRel descR :=
  fun a b => inferInstanceAs (Decidable (b.2 ≤ a.2))

instance : IsTotal (String × ℚ) descR := ⟨fun a b => le_total b.2 a.2⟩

instance : IsTrans (String × ℚ) descR := ⟨fun _ _ _ h1 h2 => le_trans h2 h1⟩

/-- The ChartConfig record built by generateBarChart (the constant
type: "bar" field is omitted; chart data objects are (category, value)
pairs). -/
structure ChartConfig where
  id : String
  fileId : String
  title : String
  xAxis : String
  yAxis : String
  data : List (String × ℚ)
  dataTotal : ℚ
deriving DecidableEq

/-- The aggregator generateBarChart of the dashboard. The running total
accumulated alongside the grouping loop is expressed as the sum over all
rows. fileName is only used for logging in the source and is unused. -/
def generateBarChart (data : List RowD) (fields : List FieldInfo)
    (_fileName fileId : String) : Option ChartConfig :=
  match fields.filter (fun f => f.isMetric), fields.filter (fun f => f.isDimension) with
  | metric :: _, dim :: _ =>
    let agg := aggregateRows data dim.name metric.name
    let dataTotal := (data.map (fun row => metricCell row metric.name)).sum
    let chartData := (List.insertionSort descR agg).take 10
    some { id := fileId ++ "-bar", fileId := fileId,
           title := metric.name ++ " by " ++ dim.name,
           xAxis := dim.name, yAxis := metric.name,
           data := chartData, dataTotal := dataTotal }
  | _, _ => none

/-! ### Column resolver (source function findColumnValue) -/

/-- A row of the map view: the CSV parser yields string cells only. -/
abbrev RowS := List (String × String)

def assocLookup : RowS → String → Option String
  | [], _ => none
  | (k, v) :: rest, key => if k = key then some v else assocLookup rest key

/-- Case-insensitive substring overlap between an actual column key and a
candidate name, in either direction. -/
def keyOverlap (key cand : String) : Bool :=
  strIncludes (toLowerStr key) (toLowerStr cand) ||
  strIncludes (toLowerStr cand) (toLowerStr key)

/-- The exact pass: first candidate name present in the row with a
non-blank value, returned trimmed. -/
def exactPass (row : RowS) : List String → Option String
  | [] => none
  | n :: ns =>
    match assocLookup row n with
    | some v => if jsTrim v ≠ "" then some (jsTrim v) else exactPass row ns
    | none => exactPass row ns

/-- Inner loop of the fuzzy pass: scan the row keys for one overlapping
the candidate with a non-blank value. -/
def fuzzyScan (cand : String) : RowS → Option String
  | [] => none
  | (k, v) :: rest =>
    if keyOverlap k cand && decide (jsTrim v ≠ "") then some (jsTrim v)
    else fuzzyScan cand rest

def fuzzyPass (row : RowS) : List String → Option String
  | [] => none
  | n :: ns =>
    match fuzzyScan n row with
    | some v => some v
    | none => fuzzyPass row ns

/-- The column resolver findColumnValue of the map view. -/
def findColumnValue (row : RowS) (possibleNames : List String) : String :=
  match exactPass row possibleNames with
  | some v => v
  | none =>
    match fuzzyPass row possibleNames with
    | some v => v
    | none => ""

/-! ### Value cleaner (source function cleanString) -/

/-- replace(/,+/g, ",") : collapse every run of commas to one comma,
scanning left to right and remembering whether the previous character
kept was a comma. -/
def collapseGo (prevComma : Bool) : List Char → List Char
  | [] => []
  | c :: rest =>
    if c = ',' then
      if prevComma then collapseGo true rest
      else ',' :: collapseGo true rest
    else c :: collapseGo false rest

def collapseCommaRuns (l : List Char) : List Char := collapseGo false l

/-- replace(/^,|,$/g, "") on a comma-collapsed string: drop one leading
comma. -/
def stripLeadComma : List Char → List Char
  | ',' :: rest => rest
  | l => l

/-- replace(/^,|,$/g, "") on a comma-collapsed string: drop one trailing
comma. -/
def stripTrailComma (l : List Char) : List Char :=
  if l.getLast? = some ',' then l.dropLast else l

def commaCleaned (l : List Char) : List Char :=
  stripTrailComma (stripLeadComma (collapseCommaRuns l))

/-- The value cleaner cleanString of the map view. -/
def cleanString (value : String) (maxLength : Nat := 50) : String :=
  if value = "" then ("")
  else
    let cleaned := commaCleaned value.toList
    if cleaned.length > maxLength ∧ cleaned.contains ',' then
      let parts := cleaned.splitOn ','
      match parts.find? (fun p =>
          let t := trimList p
          decide (¬t.isEmpty ∧ 3 < t.length ∧ t.length < maxLength)) with
      | some p => String.mk (trimList p)
      | none => String.mk (trimList (parts.headD []))
    else if cleaned.length > maxLength then
      String.mk (cleaned.take maxLength) ++ "..."
    else String.mk cleaned

/-! ### Tower record validator (source function processExcelData) -/

structure TowerData where
  id : String
  unitName : String
  latitude : ℚ
  longitude : ℚ
  towerType : String
  voltage : Nat
  operationYear : Nat
  locationName : String
  substation : String
  region : String
  status : String
deriving DecidableEq

def latAliases : List String := ["LOCK LAT", "Latitude", "LAT", "Lock Lat"]
def lngAliases : List String :=
  ["LOCK LONG", "LOCK LON", "Longitude", "LONG", "LON", "Lock Long"]
def locAliases : List String := ["Nama Lokasi", "NAMA LOKASI", "Location", "LOKASI"]
def voltAliases : List String := ["Tegangan", "TEGANGAN", "Voltage", "KV"]
def typeAliases : List String := ["TIPE", "TIPE TOWER", "Type", "Tower Type"]
def unitAliases : List String := ["Unit", "UNIT", "Unit Name", "No"]
def subAliases : List String := ["Gardu Induk", "GARDU INDUK", "Substation", "GI"]
def regionAliases : List String :=
  ["KOTA/KAB", "KOTA", "Region", "Wilayah", "KAB", "KABUPATEN"]
def statusAliases : List String := ["Status Operasi", "STATUS", "Status", "Operasi"]
def functlocAliases : List String := ["IdFunctloc", "FUNCTLOC", "ID", "Functloc"]

/-- str.replace(",", ".") with a string pattern replaces only the first
occurrence. -/
def replaceFirstComma : List Char → List Char
  | [] => []
  | c :: rest => if c = ',' then '.' :: rest else c :: replaceFirstComma rest

/-- parseFloat(s.replace(",", ".")) || 0 for a coordinate string. -/
def parseCoord (s : String) : ℚ :=
  match parseFloatM (String.mk (replaceFirstComma s.toList)) with
  | none => 0
  | some q => q

/-- parseInt(s.replace(/[^0-9]/g, "")) || 0 for a voltage string. -/
def parseVoltage (s : String) : Nat :=
  let ds := s.toList.filter isDigitChar
  if ds.isEmpty then 0 else digitsToNat ds

/-- JavaScript s || dflt on strings. -/
def orDefault (s dflt : String) : String := if s = "" then dflt else s

/-- Construction of one TowerData record from a raw row (index is the
position in the pre-filtered array, used only in the fallback id). -/
def towerFromRow (index : Nat) (row : RowS) : TowerData :=
  let latStr := findColumnValue row latAliases
  let lngStr := findColumnValue row lngAliases
  let location := findColumnValue row locAliases
  let voltage := findColumnValue row voltAliases
  let towerType := findColumnValue row typeAliases
  let unit := findColumnValue row unitAliases
  let substation := findColumnValue row subAliases
  let region := findColumnValue row regionAliases
  let status := findColumnValue row statusAliases
  let functloc := findColumnValue row functlocAliases
  { id := if functloc = "" then ("tower-") ++ Nat.repr index else functloc,
    unitName := cleanString (orDefault unit ("Unknown Unit")),
    latitude := parseCoord latStr,
    longitude := parseCoord lngStr,
    towerType := cleanString (orDefault towerType ("Unknown")),
    voltage := parseVoltage voltage,
    operationYear := 0,
    locationName := cleanString (orDefault location ("Unknown Location")),
    substation := cleanString (orDefault substation ("Unknown Substation")) 80,
    region := cleanString (orDefault region ("Unknown Region")),
    status := cleanString (orDefault status ("Unknown Status")) }

/-- The pre-filter: latitude, longitude and location must all resolve to a
non-empty (truthy) string. -/
def rowHasGeoColumns (row : RowS) : Bool :=
  decide (findColumnValue row latAliases ≠ "") &&
  decide (findColumnValue row lngAliases ≠ "") &&
  decide (findColumnValue row locAliases ≠ "")

/-- The post-filter coordinate validation. The two isNaN checks of the
source are vacuous here: a failed parse was already collapsed to 0 by
the "|| 0" guard, which the model reflects directly. -/
def validCoordsB (t : TowerData) : Bool :=
  decide (t.latitude ≠ 0) && decide (t.longitude ≠ 0) &&
  decide (|t.latitude| > (1 : ℚ) / 10) && decide (|t.longitude| > (1 : ℚ) / 10) &&
  decide ((-90 : ℚ) ≤ t.latitude) && decide (t.latitude ≤ 90) &&
  decide ((-180 : ℚ) ≤ t.longitude) && decide (t.longitude ≤ 180)

/-- The tower record validator processExcelData of the map view. -/
def processExcelData (rawData : List RowS) : List TowerData :=
  (((rawData.filter rowHasGeoColumns).enum).map
    (fun p => towerFromRow p.1 p.2)).filter validCoordsB

/-! ### Specification-side descriptions used in claim statements -/

/-- The per-group sum of the metric over all rows of one category. -/
def groupTotal (data : List RowD) (dimName metricName cat : String) : ℚ :=
  ((data.filter (fun row => decide (catOf row dimName = cat))).map
    (fun row => metricCell row metricName)).sum

/-- Sum of the values stored under a key in an association list (the value
itself when keys are unique). -/
def aggGet : List (String × ℚ) → String → ℚ
  | [], _ => 0
  | (c, v) :: rest, cat =>
    if c = cat then v + aggGet rest cat else aggGet rest cat

/-! ### Lemmas about the grouping loop -/

lemma aggGet_addToAgg (agg : List (String × ℚ)) (c' : String) (x : ℚ)
    (cat : String) :
    aggGet (addToAgg agg c' x) cat =
      aggGet agg cat + if cat = c' then x else 0 := by
  induction agg with
  | nil =>
    by_cases h : c' = cat
    · simp [addToAgg, aggGet, h]
    · have h2 : ¬cat = c' := fun he => h he.symm
      simp [addToAgg, aggGet, h, h2]
  | cons hd tl ih =>
    obtain ⟨c, v⟩ := hd
    simp only [addToAgg]
    by_cases h1 : c = c'
    · rw [if_pos h1]
      simp only [aggGet]
      by_cases h2 : c = cat
      · have h3 : cat = c' := h2.symm.trans h1
        rw [if_pos h2, if_pos h2, if_pos h3]
        ring
      · have h3 : ¬cat = c' := fun he => h2 (h1.trans he.symm)
        rw [if_neg h2, if_neg h2, if_neg h3]
        simp
    · rw [if_neg h1]
      simp only [aggGet]
      by_cases h2 : c = cat
      · rw [if_pos h2, if_pos h2, ih]
        ring
      · rw [if_neg h2, if_neg h2, ih]

lemma aggGet_foldl (dimName metricName : String) (data : List RowD) :
    ∀ agg cat,
      aggGet (data.foldl (fun agg row =>
        addToAgg agg (catOf row dimName) (metricCell row metricName)) agg) cat
      = aggGet agg cat + groupTotal data dimName metricName cat := by
  induction data with
  | nil => simp [groupTotal]
  | cons r rs ih =>
    intro agg cat
    simp only [List.foldl_cons]
    rw [ih, aggGet_addToAgg]
    by_cases h : catOf r dimName = cat
    · simp [groupTotal, List.filter_cons, h]
      ring
    · have h2 : ¬cat = catOf r dimName := fun he => h he.symm
      simp [groupTotal, List.filter_cons, h, h2]

lemma aggGet_aggregateRows (data : List RowD) (dimName metricName cat : String) :
    aggGet (aggregateRows data dimName metricName) cat =
      groupTotal data dimName metricName cat := by
  have := aggGet_foldl dimName metricName data [] cat
  simpa [aggregateRows, aggGet] using this

lemma keys_addToAgg (agg : List (String × ℚ)) (c' : String) (x : ℚ) :
    (addToAgg agg c' x).map Prod.fst =
      if c' ∈ agg.map Prod.fst then agg.map Prod.fst
      else agg.map Prod.fst ++ [c'] := by
  induction agg with
  | nil => simp [addToAgg]
  | cons hd tl ih =>
    obtain ⟨c, v⟩ := hd
    by_cases h : c = c'
    · subst h
      simp [addToAgg]
    · have h2 : ¬c' = c := fun he => h he.symm
      by_cases hm : c' ∈ tl.map Prod.fst <;>
        simp [addToAgg, h, h2, hm, ih]

lemma nodup_keys_addToAgg (agg : List (String × ℚ)) (c' : String) (x : ℚ)
    (h : (agg.map Prod.fst).Nodup) :
    ((addToAgg agg c' x).map Prod.fst).Nodup := by
  rw [keys_addToAgg]
  by_cases hm : c' ∈ agg.map Prod.fst
  · simpa [hm] using h
  · simp only [hm, if_false]
    simpa [List.nodup_append, hm] using h

lemma nodup_keys_aggregateRows (data : List RowD) (dimName metricName : String) :
    ((aggregateRows data dimName metricName).map Prod.fst).Nodup := by
  have aux : ∀ (l : List RowD) (agg : List (String × ℚ)),
      (agg.map Prod.fst).Nodup →
      ((l.foldl (fun agg row =>
        addToAgg agg (catOf row dimName) (metricCell row metricName)) agg).map
          Prod.fst).Nodup := by
    intro l
    induction l with
    | nil => intro agg h; simpa using h
    | cons r rs ih =>
      intro agg h
      simp only [List.foldl_cons]
      exact ih _ (nodup_keys_addToAgg _ _ _ h)
  exact aux data [] (by simp)

lemma aggGet_eq_zero_of_not_mem (agg : List (String × ℚ)) (cat : String)
    (h : cat ∉ agg.map Prod.fst) : aggGet agg cat = 0 := by
  induction agg with
  | nil => rfl
  | cons hd tl ih =>
    obtain ⟨c, v⟩ := hd
    simp only [List.map_cons, List.mem_cons] at h
    push_neg at h
    have hc : ¬c = cat := fun he => h.1 he.symm
    simp [aggGet, hc, ih h.2]

lemma eq_aggGet_of_mem (agg : List (String × ℚ)) (c : String) (v : ℚ)
    (hnd : (agg.map Prod.fst).Nodup) (hmem : (c, v) ∈ agg) :
    v = aggGet agg c := by
  induction agg with
  | nil => simp at hmem
  | cons hd tl ih =>
    obtain ⟨c0, v0⟩ := hd
    simp only [List.map_cons, List.nodup_cons] at hnd
    rcases List.mem_cons.mp hmem with he | hmem2
    · obtain ⟨h1, h2⟩ := Prod.mk.injEq .. ▸ he
      subst h1; subst h2
      have : aggGet tl c = 0 := aggGet_eq_zero_of_not_mem tl c hnd.1
      simp [aggGet, this]
    · have hc : ¬c0 = c := by
        intro he
        subst he
        exact hnd.1 (List.mem_map.mpr ⟨(c0, v), hmem2, rfl⟩)
      simp only [aggGet, hc, if_false]
      exact ih hnd.2 hmem2

lemma sum_snd_addToAgg (agg : List (String × ℚ)) (c' : String) (x : ℚ) :
    ((addToAgg agg c' x).map Prod.snd).sum = (agg.map Prod.snd).sum + x := by
  induction agg with
  | nil => simp [addToAgg]
  | cons hd tl ih =>
    obtain ⟨c, v⟩ := hd
    by_cases h : c = c' <;> simp [addToAgg, h, ih] <;> ring

lemma sum_snd_aggregateRows (data : List RowD) (dimName metricName : String) :
    ((aggregateRows data dimName metricName).map Prod.snd).sum =
      (data.map (fun row => metricCell row metricName)).sum := by
  have aux : ∀ (l : List RowD) (agg : List (String × ℚ)),
      ((l.foldl (fun agg row =>
        addToAgg agg (catOf row dimName) (metricCell row metricName)) agg).map
          Prod.snd).sum
        = (agg.map Prod.snd).sum + (l.map (fun row => metricCell row metricName)).sum := by
    intro l
    induction l with
    | nil => simp
    | cons r rs ih =>
      intro agg
      simp only [List.foldl_cons, List.map_cons, List.sum_cons]
      rw [ih, sum_snd_addToAgg]
      ring
  simpa [aggregateRows] using aux data []

/-! ### Concrete fixtures -/

/-- The rows of the worked aggregation example. -/
def c1rows : List RowD :=
  [[("region", .str ("A")), ("amt", .num 10)],
   [("region", .str ("B")), ("amt", .num 30)],
   [("region", .str ("A")), ("amt", .num 5)]]

/-- Classified fields of the worked example: region is the dimension, amt
the metric (in original column order). -/
def c1fields : List FieldInfo :=
  [{ name := "region", type := .category, isMetric := false, isDimension := true,
     uniqueValues := 2, sampleValues := ["A", "B"] },
   { name := "amt", type := .number, isMetric := true, isDimension := false,
     uniqueValues := 3, sampleValues := ["10", "30", "5"] }]

/-- The chart the aggregator builds over the worked example. -/
def c1cfg : ChartConfig :=
  { id := "f1-bar", fileId := "f1", title := "amt by region",
    xAxis := "region", yAxis := "amt",
    data := [("B", 30), ("A", 15)], dataTotal := 45 }

unseal Rat.add Rat.mul Rat.inv Rat.sub Rat.ofScientific in
/-- C1: whenever the aggregator returns a series, the points are the
per-group sums of the metric (grouped by the dimension value), sorted in
descending order of summed value and truncated to at most 10 points,
while the reported total is the sum of the metric over all rows; on the
worked example the points are [(B, 30), (A, 15)] and the total is 45. -/
theorem claim_C1 :
    (∀ (data : List RowD) (fields : List FieldInfo) (fn fid : String)
        (cfg : ChartConfig),
      generateBarChart data fields fn fid = some cfg →
      ∃ metric dim,
        (fields.filter (fun f => f.isMetric)).head? = some metric ∧
        (fields.filter (fun f => f.isDimension)).head? = some dim ∧
        List.Sorted descR cfg.data ∧
        cfg.data.length ≤ 10 ∧
        (∀ p ∈ cfg.data, p.2 = groupTotal data dim.name metric.name p.1) ∧
        cfg.dataTotal = (data.map (fun row => metricCell row metric.name)).sum ∧
        cfg.dataTotal = ((aggregateRows data dim.name metric.name).map Prod.snd).sum)
    ∧ generateBarChart c1rows c1fields ("f") ("f1") = some c1cfg := by
  constructor
  · intro data fields fn fid cfg h
    rcases hm : fields.filter (fun f => f.isMetric) with _ | ⟨metric, mrest⟩
    · simp [generateBarChart, hm] at h
    · rcases hd : fields.filter (fun f => f.isDimension) with _ | ⟨dim, drest⟩
      · simp [generateBarChart, hd] at h
      · simp only [generateBarChart, hm, hd, Option.some.injEq] at h
        subst h
        refine ⟨metric, dim, by rw [hm]; rfl, by rw [hd]; rfl, ?_, ?_, ?_, ?_, ?_⟩
        · exact (List.sorted_insertionSort descR _).sublist (List.take_sublist _ _)
        · simp [List.length_take]
        · intro p hp
          obtain ⟨pc, pv⟩ := p
          have hp2 : (pc, pv) ∈ aggregateRows data dim.name metric.name := by
            have := (List.take_sublist 10 _).subset hp
            simpa using this
          have := eq_aggGet_of_mem _ pc pv
            (nodup_keys_aggregateRows data dim.name metric.name) hp2
          rw [this, aggGet_aggregateRows]
        · rfl
        · exact (sum_snd_aggregateRows data dim.name metric.name).symm
  · decide

unseal Rat.add Rat.mul Rat.inv Rat.sub Rat.ofScientific in
/-- C1 witness: the general part of C1 instantiated at the worked example. -/
theorem claim_C1_witness :
    ∃ metric dim,
      (c1fields.filter (fun f => f.isMetric)).head? = some metric ∧
      (c1fields.filter (fun f => f.isDimension)).head? = some dim ∧
      List.Sorted descR c1cfg.data ∧
      c1cfg.data.length ≤ 10 ∧
      (∀ p ∈ c1cfg.data, p.2 = groupTotal c1rows dim.name metric.name p.1) ∧
      c1cfg.dataTotal = (c1rows.map (fun row => metricCell row metric.name)).sum ∧
      c1cfg.dataTotal =
        ((aggregateRows c1rows dim.name metric.name).map Prod.snd).sum :=
  claim_C1.1 c1rows c1fields ("f") ("f1") c1cfg (by decide)

/-- C9: the aggregator returns null exactly when the field list has no
metric field or no dimension field; otherwise it builds the series from
the first metric field and the first dimension field in field-list order.
The null result is an ordinary value, not an error. -/
theorem claim_C9 :
    ∀ (data : List RowD) (fields : List FieldInfo) (fn fid : String),
      (generateBarChart data fields fn fid = none ↔
        fields.filter (fun f => f.isMetric) = [] ∨
        fields.filter (fun f => f.isDimension) = []) ∧
      (∀ cfg, generateBarChart data fields fn fid = some cfg →
        ∃ metric dim,
          (fields.filter (fun f => f.isMetric)).head? = some metric ∧
          (fields.filter (fun f => f.isDimension)).head? = some dim ∧
          cfg.yAxis = metric.name ∧ cfg.xAxis = dim.name ∧
          cfg.title = metric.name ++ " by " ++ dim.name) := by
  intro data fields fn fid
  constructor
  · rcases hm : fields.filter (fun f => f.isMetric) with _ | ⟨metric, mrest⟩
    · simp [generateBarChart, hm]
    · rcases hd : fields.filter (fun f => f.isDimension) with _ | ⟨dim, drest⟩
      · simp [generateBarChart, hm, hd]
      · simp [generateBarChart, hm, hd]
  · intro cfg h
    rcases hm : fields.filter (fun f => f.isMetric) with _ | ⟨metric, mrest⟩
    · simp [generateBarChart, hm] at h
    · rcases hd : fields.filter (fun f => f.isDimension) with _ | ⟨dim, drest⟩
      · simp [generateBarChart, hd] at h
      · simp only [generateBarChart, hm, hd, Option.some.injEq] at h
        subst h
        exact ⟨metric, dim, by rw [hm]; rfl, by rw [hd]; rfl, rfl, rfl, rfl⟩

unseal Rat.add Rat.mul Rat.inv Rat.sub Rat.ofScientific in
/-- C9 witness: C9 instantiated at the worked example. -/
theorem claim_C9_witness :
    ∃ metric dim,
      (c1fields.filter (fun f => f.isMetric)).head? = some metric ∧
      (c1fields.filter (fun f => f.isDimension)).head? = some dim ∧
      c1cfg.yAxis = metric.name ∧ c1cfg.xAxis = dim.name ∧
      c1cfg.title = metric.name ++ " by " ++ dim.name :=
  (claim_C9 c1rows c1fields ("f") ("f1")).2 c1cfg (by decide)

/-! ### Classifier lemmas and claims -/

lemma base_mutex (nonNull : List JSValue) (nv : List ℚ) (u : Nat) :
    ((baseClassify nonNull nv u).isMetric &&
      (baseClassify nonNull nv u).isDimension) = false := by
  unfold baseClassify
  split_ifs <;> rfl

lemma ovA_mutex (n : String) (s : ClassState)
    (h : (s.isMetric && s.isDimension) = false) :
    ((overrideA n s).isMetric && (overrideA n s).isDimension) = false := by
  unfold overrideA
  split_ifs
  · rfl
  · exact h

lemma ovB_mutex (n : String) (nv : List ℚ) (s : ClassState)
    (h : (s.isMetric && s.isDimension) = false) :
    ((overrideB n nv s).isMetric && (overrideB n nv s).isDimension) = false := by
  unfold overrideB
  split_ifs <;> first | rfl | exact h

/-- C8: the descriptor returned by the classifier never has both roles:
isMetric and isDimension are never simultaneously true, on every path
(the terminal all-empty case, the statistical tests and both name-based
overrides). -/
theorem claim_C8 :
    ∀ (values : List JSValue) (fieldName : String),
      ((analyzeField values fieldName).isMetric &&
        (analyzeField values fieldName).isDimension) = false := by
  intro values fieldName
  simp only [analyzeField]
  split
  · rfl
  · exact ovB_mutex _ _ _ (ovA_mutex _ _ (base_mutex _ _ _))

lemma numericValuesOf_of_nonNull_nil (values : List JSValue)
    (h : nonNullOf values = []) : numericValuesOf values = [] := by
  simp [numericValuesOf, h]

/-- C5: a field whose name matches both a dimension-bias keyword and a
metric-bias keyword ends as a forced metric whenever its numeric subset
is non-empty, because override B runs after override A; the forced type
is currency for money names (price, cost) and number otherwise. -/
theorem claim_C5 :
    ∀ (values : List JSValue) (fieldName : String),
      hasDimKeyword fieldName = true →
      hasMetricKeyword fieldName = true →
      numericValuesOf values ≠ [] →
      (analyzeField values fieldName).isMetric = true ∧
      (analyzeField values fieldName).isDimension = false ∧
      (analyzeField values fieldName).type =
        (if nameIsMoney (toLowerStr fieldName) then FieldType.currency
         else FieldType.number) := by
  intro values fieldName _ h2 h3
  have hpos : 0 < (numericValuesOf values).length := List.length_pos.mpr h3
  have hne : (nonNullOf values).isEmpty = false := by
    rcases he : (nonNullOf values).isEmpty with _ | _
    · rfl
    · exact absurd (numericValuesOf_of_nonNull_nil values (List.isEmpty_iff.mp he)) h3
  simp only [analyzeField, hne, Bool.false_eq_true, if_false]
  refine ⟨?_, ?_, ?_⟩ <;> simp [overrideB, h2, hpos]

/-- The currency column of the worked classification example. -/
def c3values : List JSValue := [.str ("$100.00"), .str ("$250.50"), .str ("$75.25")]

unseal Rat.add Rat.mul Rat.inv Rat.sub Rat.ofScientific in
/-- C3: the column of values $100.00, $250.50, $75.25, under any field
name that triggers neither name-based override, classifies as a currency
metric with total 425.75 and average 425.75 / 3. -/
theorem claim_C3 :
    ∀ fieldName : String,
      hasDimKeyword fieldName = false →
      hasMetricKeyword fieldName = false →
      (analyzeField c3values fieldName).type = FieldType.currency ∧
      (analyzeField c3values fieldName).isMetric = true ∧
      (analyzeField c3values fieldName).total = some ((1703 : ℚ) / 4) ∧
      (analyzeField c3values fieldName).average = some ((1703 : ℚ) / 12) := by
  intro fieldName h1 h2
  have hne : (nonNullOf c3values).isEmpty = false := by decide
  have hbase : baseClassify (nonNullOf c3values) (numericValuesOf c3values)
      ((dedupFirst (nonNullOf c3values)).length) =
      ⟨.currency, true, false, some ((1703 : ℚ) / 4), some ((1703 : ℚ) / 12),
        some ((301 : ℚ) / 4), some ((501 : ℚ) / 2)⟩ := by decide
  simp only [analyzeField, hne, Bool.false_eq_true, if_false, hbase]
  refine ⟨?_, ?_, ?_, ?_⟩ <;> simp [overrideA, overrideB, h1, h2]

/-- C3 witness: the field name val triggers no override. -/
theorem claim_C3_witness :
    (analyzeField c3values ("val")).type = FieldType.currency ∧
    (analyzeField c3values ("val")).isMetric = true ∧
    (analyzeField c3values ("val")).total = some ((1703 : ℚ) / 4) ∧
    (analyzeField c3values ("val")).average = some ((1703 : ℚ) / 12) :=
  claim_C3 ("val") (by decide) (by decide)

/-- C5 witness: the name total name matches both keyword sets and the
single cell 5 gives a non-empty numeric subset. -/
theorem claim_C5_witness :
    (analyzeField [JSValue.num 5] "total name").isMetric = true ∧
    (analyzeField [JSValue.num 5] "total name").isDimension = false ∧
    (analyzeField [JSValue.num 5] "total name").type =
      (if nameIsMoney (toLowerStr ("total name")) then FieldType.currency
       else FieldType.number) :=
  claim_C5 [JSValue.num 5] "total name" (by decide) (by decide) (by decide)

/-! ### Claims about unparsable numeric values (C2) and falsy grouping (C10) -/

/-- Rows with a metric cell that has a numeric prefix followed by garbage:
the classifier rejects it, the aggregator keeps its prefix value. -/
def c2rows : List RowD :=
  [[("cat", .str ("A")), ("total", .str ("5"))],
   [("cat", .str ("B")), ("total", .str ("12abc"))]]

/-- The fields the classifier itself produces on the two columns of
c2rows (name total forces the second column to be a metric). -/
def c2fields : List FieldInfo :=
  [analyzeField [.str ("A"), .str ("B")] "cat",
   analyzeField [.str ("5"), .str ("12abc")] "total"]

unseal Rat.add Rat.mul Rat.inv Rat.sub Rat.ofScientific in
/-- C2 counterexample: the cell 12abc fails the numeric parse used by
classification (it is excluded from numericValues), yet in aggregation it
contributes 12 - not 0 - to its group sum and to the overall total,
because aggregation parses with the prefix parse parseFloat. -/
theorem claim_C2_cex :
    numericKeep (JSValue.str ("12abc")) = false ∧
    numericValuesOf [JSValue.str ("5"), JSValue.str ("12abc")] = [5] ∧
    metricCellValue (JSValue.str ("12abc")) = 12 ∧
    groupTotal c2rows ("cat") ("total") ("B") = 12 ∧
    (generateBarChart c2rows c2fields ("f") ("f2")).map (fun c => c.dataTotal) =
      some 17 ∧
    (12 : ℚ) ≠ 0 := by
  refine ⟨by decide, by decide, by decide, by decide, by decide, by decide⟩

/-- C2 as amended: classification excludes every value whose stripped
string fails the strict whole-string parse (it enters no count or
statistic), while aggregation contributes 0 exactly for cells whose
stripped string fails the prefix parse parseFloat. -/
theorem claim_C2 :
    (∀ (values : List JSValue) (v : JSValue), numericKeep v = false →
        numericValuesOf (values ++ [v]) = numericValuesOf values) ∧
    (∀ v : JSValue, parseFloatM (stripSym (jsToString v)) = none →
        metricCellValue v = 0) := by
  constructor
  · intro values v h
    by_cases hn : isNonNull v
    · simp [numericValuesOf, nonNullOf, List.filter_append, hn, h]
    · simp [numericValuesOf, nonNullOf, List.filter_append, hn]
  · intro v h
    simp [metricCellValue, h]

/-- C2 witness: the fully alphabetic cell abc is excluded by
classification and contributes 0 in aggregation. -/
theorem claim_C2_witness :
    numericValuesOf ([] ++ [JSValue.str ("abc")]) = numericValuesOf [] ∧
    metricCellValue (JSValue.str ("abc")) = 0 :=
  ⟨claim_C2.1 [] (JSValue.str ("abc")) (by decide),
   claim_C2.2 (JSValue.str ("abc")) (by decide)⟩

/-- Rows exercising every falsy dimension cell: empty string, the number
0, false, and a missing cell, plus one truthy cell. -/
def c10rows : List RowD :=
  [[("region", .str ("")), ("amt", .num 10)],
   [("region", .num 0), ("amt", .num 20)],
   [("region", .bool false), ("amt", .num 30)],
   [("amt", .num 40)],
   [("region", .str ("A")), ("amt", .num 5)]]

unseal Rat.add Rat.mul Rat.inv Rat.sub Rat.ofScientific in
/-- C10: a row is grouped under the literal Unknown category whenever its
dimension cell is falsy - the empty string, the number 0, false, or a
missing cell - and only truthy cells group under their own (stringified)
value; on c10rows the four falsy rows merge into Unknown with sum 100. -/
theorem claim_C10 :
    (∀ v : JSValue, jsTruthy v = false → jsCategory v = "Unknown") ∧
    (∀ v : JSValue, jsTruthy v = true → jsCategory v = jsToString v) ∧
    (∀ row : RowD, (∀ k v, (k, v) ∈ row → k ≠ "region") →
        catOf row ("region") = "Unknown") ∧
    (generateBarChart c10rows c1fields ("f") ("f3")).map (fun c => c.data) =
      some [("Unknown", (100 : ℚ)), ("A", 5)] := by
  refine ⟨?_, ?_, ?_, by decide⟩
  · intro v h
    simp [jsCategory, h]
  · intro v h
    simp [jsCategory, h]
  · intro row h
    have hu : dLookup row ("region") = JSValue.undefined := by
      rcases hf : row.find? (fun p => p.1 == "region") with _ | ⟨k, v⟩
      · simp [dLookup, hf]
      · exfalso
        have hm := List.mem_of_find?_eq_some hf
        have hp := List.find?_some hf
        simp only [beq_iff_eq] at hp
        exact h k v hm hp
    simp [catOf, hu, jsCategory, jsTruthy]

/-- C10 witness: the number 0 is grouped under Unknown, the non-empty
string A under itself, and a row without the dimension key under
Unknown. -/
theorem claim_C10_witness :
    jsCategory (JSValue.num 0) = "Unknown" ∧
    jsCategory (JSValue.str ("A")) = jsToString (JSValue.str ("A")) ∧
    catOf [("amt", JSValue.num 40)] "region" = "Unknown" :=
  ⟨claim_C10.1 (JSValue.num 0) (by decide),
   claim_C10.2.1 (JSValue.str ("A")) (by decide),
   claim_C10.2.2.1 [("amt", JSValue.num 40)]
     (by
       intro k v hm
       simp only [List.mem_singleton, Prod.mk.injEq] at hm
       rw [hm.1]
       decide)⟩

/-! ### Tower record validator claims (C4) -/

/-- A row whose latitude cell is the string 0 (valid longitude and
location): the zero-coordinate sentinel rule must reject it. -/
def c4row0 : RowS :=
  [("Latitude", "0"), ("Longitude", "107.5"), ("Nama Lokasi", "Gunung"),
   ("Tegangan", "150 kV")]

/-- A row with valid coordinates, accepted by the validator. -/
def c4rowOK : RowS :=
  [("Latitude", "-6.2"), ("Longitude", "107.5"), ("Nama Lokasi", "Site A")]

unseal Rat.add Rat.mul Rat.inv Rat.sub Rat.ofScientific in
/-- C4: every record surviving the tower record validator has latitude in
[-90, 90], longitude in [-180, 180], both coordinates of absolute value
above 0.1 and neither exactly 0 (NaN is impossible: a failed parse is
collapsed to 0 before the filter); a row whose parsed coordinates violate
any of these produces no record, and in particular the row with latitude
string 0 and longitude 107.5 produces no record. -/
theorem claim_C4 :
    (∀ (rows : List RowS) (t : TowerData), t ∈ processExcelData rows →
        t.latitude ≠ 0 ∧ t.longitude ≠ 0 ∧
        |t.latitude| > (1 : ℚ) / 10 ∧ |t.longitude| > (1 : ℚ) / 10 ∧
        (-90 : ℚ) ≤ t.latitude ∧ t.latitude ≤ 90 ∧
        (-180 : ℚ) ≤ t.longitude ∧ t.longitude ≤ 180) ∧
    (∀ row : RowS, validCoordsB (towerFromRow 0 row) = false →
        processExcelData [row] = []) ∧
    processExcelData [c4row0] = [] := by
  refine ⟨?_, ?_, by decide⟩
  · intro rows t ht
    have hv : validCoordsB t = true := (List.mem_filter.mp ht).2
    simp only [validCoordsB, Bool.and_eq_true, decide_eq_true_eq] at hv
    obtain ⟨⟨⟨⟨⟨⟨⟨h1, h2⟩, h3⟩, h4⟩, h5⟩, h6⟩, h7⟩, h8⟩ := hv
    exact ⟨h1, h2, h3, h4, h5, h6, h7, h8⟩
  · intro row h
    rcases hg : rowHasGeoColumns row with _ | _
    · simp [processExcelData, List.filter_cons, hg]
    · simp [processExcelData, List.filter_cons, hg, List.enum_cons, h]

unseal Rat.add Rat.mul Rat.inv Rat.sub Rat.ofScientific in
/-- C4 witness: the record built from the accepted row satisfies every
coordinate bound. -/
theorem claim_C4_witness :
    (towerFromRow 0 c4rowOK).latitude ≠ 0 ∧
    (towerFromRow 0 c4rowOK).longitude ≠ 0 ∧
    |(towerFromRow 0 c4rowOK).latitude| > (1 : ℚ) / 10 ∧
    |(towerFromRow 0 c4rowOK).longitude| > (1 : ℚ) / 10 ∧
    (-90 : ℚ) ≤ (towerFromRow 0 c4rowOK).latitude ∧
    (towerFromRow 0 c4rowOK).latitude ≤ 90 ∧
    (-180 : ℚ) ≤ (towerFromRow 0 c4rowOK).longitude ∧
    (towerFromRow 0 c4rowOK).longitude ≤ 180 :=
  claim_C4.1 [c4rowOK] (towerFromRow 0 c4rowOK) (by decide)

/-! ### Column resolver claims (C6) -/

lemma listIsPrefixOfB_self (l : List Char) : listIsPrefixOfB l l = true := by
  induction l with
  | nil => rfl
  | cons c rest ih => simp [listIsPrefixOfB, ih]

lemma listIsInfixOfB_self (l : List Char) : listIsInfixOfB l l = true := by
  cases l with
  | nil => rfl
  | cons c rest => simp [listIsInfixOfB, listIsPrefixOfB_self]

lemma keyOverlap_self (k : String) : keyOverlap k k = true := by
  simp [keyOverlap, strIncludes, listIsInfixOfB_self]

lemma assocLookup_mem (row : RowS) (k v : String)
    (h : assocLookup row k = some v) : (k, v) ∈ row := by
  induction row with
  | nil => simp [assocLookup] at h
  | cons hd tl ih =>
    obtain ⟨k0, v0⟩ := hd
    by_cases he : k0 = k
    · subst he
      have he2 : assocLookup ((k0, v0) :: tl) k0 = some v0 := by
        simp [assocLookup]
      rw [he2] at h
      injection h with h2
      subst h2
      exact List.mem_cons_self _ _
    · simp only [assocLookup, if_neg he] at h
      exact List.mem_cons_of_mem _ (ih h)

lemma exactPass_spec (row : RowS) :
    ∀ (names : List String) (r : String), exactPass row names = some r →
      ∃ n v, n ∈ names ∧ assocLookup row n = some v ∧
        r = jsTrim v ∧ jsTrim v ≠ "" := by
  intro names
  induction names with
  | nil => intro r h; simp [exactPass] at h
  | cons n ns ih =>
    intro r h
    simp only [exactPass] at h
    rcases hl : assocLookup row n with _ | v
    · rw [hl] at h
      obtain ⟨n', v', hn, hl', hr, hne⟩ := ih r h
      exact ⟨n', v', List.mem_cons_of_mem _ hn, hl', hr, hne⟩
    · simp only [hl] at h
      by_cases ht : jsTrim v ≠ ""
      · rw [if_pos ht] at h
        exact ⟨n, v, List.mem_cons_self _ _, hl, (Option.some.inj h).symm, ht⟩
      · rw [if_neg ht] at h
        obtain ⟨n', v', hn, hl', hr, hne⟩ := ih r h
        exact ⟨n', v', List.mem_cons_of_mem _ hn, hl', hr, hne⟩

lemma fuzzyScan_spec (cand : String) :
    ∀ (row : RowS) (r : String), fuzzyScan cand row = some r →
      ∃ k v, (k, v) ∈ row ∧ keyOverlap k cand = true ∧
        r = jsTrim v ∧ jsTrim v ≠ "" := by
  intro row
  induction row with
  | nil => intro r h; simp [fuzzyScan] at h
  | cons hd tl ih =>
    obtain ⟨k, v⟩ := hd
    intro r h
    simp only [fuzzyScan] at h
    by_cases hc : keyOverlap k cand && decide (jsTrim v ≠ "")
    · rw [if_pos hc] at h
      have hc2 := hc
      simp only [Bool.and_eq_true, decide_eq_true_eq] at hc2
      exact ⟨k, v, List.mem_cons_self _ _, hc2.1, (Option.some.inj h).symm, hc2.2⟩
    · rw [if_neg hc] at h
      obtain ⟨k', v', hm, ho, hr, hne⟩ := ih r h
      exact ⟨k', v', List.mem_cons_of_mem _ hm, ho, hr, hne⟩

lemma fuzzyPass_spec (row : RowS) :
    ∀ (names : List String) (r : String), fuzzyPass row names = some r →
      ∃ n k v, n ∈ names ∧ (k, v) ∈ row ∧ keyOverlap k n = true ∧
        r = jsTrim v ∧ jsTrim v ≠ "" := by
  intro names
  induction names with
  | nil => intro r h; simp [fuzzyPass] at h
  | cons n ns ih =>
    intro r h
    simp only [fuzzyPass] at h
    rcases hs : fuzzyScan n row with _ | v
    · simp only [hs] at h
      obtain ⟨n', k', v', hn, hm, ho, hr, hne⟩ := ih r h
      exact ⟨n', k', v', List.mem_cons_of_mem _ hn, hm, ho, hr, hne⟩
    · simp only [hs] at h
      obtain ⟨k', v', hm, ho, hr, hne⟩ := fuzzyScan_spec n row v hs
      exact ⟨n, k', v', List.mem_cons_self _ _, hm, ho,
        (Option.some.inj h).symm ▸ hr, hne⟩

lemma trimList_infix (l : List Char) : List.IsInfix (trimList l) l := by
  have h1 : l.dropWhile isWSChar <:+ l := List.dropWhile_suffix _
  have h2 : ((l.dropWhile isWSChar).reverse.dropWhile isWSChar) <:+
      (l.dropWhile isWSChar).reverse := List.dropWhile_suffix _
  have h3 : trimList l <+: l.dropWhile isWSChar := by
    apply List.reverse_suffix.mp
    simpa [trimList] using h2
  exact h3.isInfix.trans h1.isInfix

/-- C6: the column resolver returns either the empty string or the
trimmed content of some cell row[k] whose key case-insensitively overlaps
one of the candidate names; the returned string occurs verbatim
(contiguously) inside that cell, so no value is ever fabricated, and when
nothing matches the result is the empty string. -/
theorem claim_C6 :
    ∀ (row : RowS) (names : List String),
      findColumnValue row names = "" ∨
      ∃ k v, (k, v) ∈ row ∧
        (∃ n ∈ names, keyOverlap k n = true) ∧
        findColumnValue row names = jsTrim v ∧ jsTrim v ≠ "" ∧
        List.IsInfix (jsTrim v).toList v.toList := by
  intro row names
  unfold findColumnValue
  rcases he : exactPass row names with _ | r
  · rcases hf : fuzzyPass row names with _ | r
    · left; rfl
    · right
      obtain ⟨n, k, v, hn, hm, ho, hr, hne⟩ := fuzzyPass_spec row names r hf
      exact ⟨k, v, hm, ⟨n, hn, ho⟩, hr ▸ rfl, hne, trimList_infix _⟩
  · right
    obtain ⟨n, v, hn, hl, hr, hne⟩ := exactPass_spec row names r he
    exact ⟨n, v, assocLookup_mem row n v hl, ⟨n, hn, keyOverlap_self n⟩,
      hr ▸ rfl, hne, trimList_infix _⟩

/-! ### Value cleaner claims (C7) -/

/-- One step of the specification-side comma collapse: keep the character
unless it is a comma immediately preceding an already-kept comma. -/
def collapseStep (c : Char) (acc : List Char) : List Char :=
  if c = ',' ∧ acc.head? = some ',' then acc else c :: acc

/-- Specification-side formulation of collapsing every run of commas to a
single comma. -/
def collapseRunsSpec (l : List Char) : List Char := l.foldr collapseStep []

/-- The value cleaner as the claim describes it, differing from the
source translation only in the formulation of the comma collapse. -/
def cleanStringSpec (value : String) (maxLength : Nat := 50) : String :=
  if value = "" then ("")
  else
    let cleaned := stripTrailComma (stripLeadComma (collapseRunsSpec value.toList))
    if cleaned.length > maxLength ∧ cleaned.contains ',' then
      let parts := cleaned.splitOn ','
      match parts.find? (fun p =>
          let t := trimList p
          decide (¬t.isEmpty ∧ 3 < t.length ∧ t.length < maxLength)) with
      | some p => String.mk (trimList p)
      | none => String.mk (trimList (parts.headD []))
    else if cleaned.length > maxLength then
      String.mk (cleaned.take maxLength) ++ "..."
    else String.mk cleaned

lemma collapseRunsSpec_cons_comma_head (rest : List Char) :
    (collapseRunsSpec (',' :: rest)).head? = some ',' := by
  simp only [collapseRunsSpec, List.foldr_cons, collapseStep]
  split_ifs with h
  · exact h.2
  · rfl

lemma collapseRunsSpec_cons_comma_comma (rest : List Char) :
    collapseRunsSpec (',' :: ',' :: rest) = collapseRunsSpec (',' :: rest) := by
  have hhead := collapseRunsSpec_cons_comma_head rest
  show collapseStep ',' (collapseRunsSpec (',' :: rest)) = collapseRunsSpec (',' :: rest)
  simp [collapseStep, hhead]

lemma collapseRunsSpec_cons_other (c : Char) (rest : List Char) (hc : ¬c = ',') :
    collapseRunsSpec (c :: rest) = c :: collapseRunsSpec rest := by
  show collapseStep c (collapseRunsSpec rest) = c :: collapseRunsSpec rest
  simp [collapseStep, hc]

lemma collapseGo_eq_spec (l : List Char) :
    collapseGo false l = collapseRunsSpec l ∧
    ',' :: collapseGo true l = collapseRunsSpec (',' :: l) := by
  induction l with
  | nil => exact ⟨rfl, rfl⟩
  | cons c rest ih =>
    by_cases hc : c = ','
    · subst hc
      refine ⟨by simpa [collapseGo] using ih.2, ?_⟩
      rw [collapseRunsSpec_cons_comma_comma, ← ih.2]
      simp [collapseGo]
    · refine ⟨?_, ?_⟩
      · rw [collapseRunsSpec_cons_other c rest hc, ← ih.1]
        simp [collapseGo, hc]
      · have h2 : collapseRunsSpec (',' :: c :: rest) =
            ',' :: c :: collapseRunsSpec rest := by
          rw [show collapseRunsSpec (',' :: c :: rest) =
              collapseStep ',' (collapseRunsSpec (c :: rest)) from rfl,
            collapseRunsSpec_cons_other c rest hc]
          simp [collapseStep, hc]
        rw [h2, ← ih.1]
        simp [collapseGo, hc]

/-- C7: the value cleaner first collapses every run of commas to one
comma and strips one leading and one trailing comma; if the cleaned
string exceeds maxLength and still contains a comma it returns the first
comma-separated segment whose trimmed length lies strictly between 3 and
maxLength (or the first segment trimmed when none qualifies); otherwise
an overlong string is cut to maxLength characters plus an ellipsis
marker, and a short string is returned unchanged. In particular
clean(a,,b,, with maxLength 50) is a,b. -/
theorem claim_C7 :
    (∀ (value : String) (maxLength : Nat),
      cleanString value maxLength = cleanStringSpec value maxLength) ∧
    cleanString ("a,,b,,") 50 = "a,b" := by
  constructor
  · intro v n
    unfold cleanString cleanStringSpec commaCleaned collapseCommaRuns
    rw [(collapseGo_eq_spec v.toList).1]
  · decide

end ApiExcel
